import Mathlib

/-!
Shallow embedding of `bed2gtf.py`, the BED12 to GTF converter.

Coordinates are Python integers, embedded as `ℤ`.  Lists of exon bounds are
`List ℤ`.  The I/O shim (line tokenisation, file writing, CLI) is out of
scope; the embedding starts from the parsed numeric fields of one record
with absolute exon bounds, exactly the values the Python code computes on
lines 261-272 before calling the geometric engine.  Python `%` on a
positive divisor agrees with `Int.emod`, so `%` is used directly.
-/

deriving instance DecidableEq for Except

namespace Bed2Gtf

/-- Source `check_exon_frame` (lines 19-22): intersection of an exon interval
with the CDS interval, as a (start, end) pair. -/
def check_exon_frame (exonStart exonEnd cdsStart cdsEnd : ℤ) : ℤ × ℤ :=
  (max exonStart cdsStart, min exonEnd cdsEnd)

/-- The loop body of `exon_frames` (lines 46-52), walking a list of
(exonStart, exonEnd) pairs in transcription order with a running CDS base
count.  Returns the frames in processing order and the final running count. -/
def framesGo (cdsStart cdsEnd : ℤ) : List (ℤ × ℤ) → ℤ → List ℤ × ℤ
  | [], cds => ([], cds)
  | p :: rest, cds =>
    let se := check_exon_frame p.1 p.2 cdsStart cdsEnd
    if se.1 < se.2 then
      let r := framesGo cdsStart cdsEnd rest (cds + (se.2 - se.1))
      ((cds % 3) :: r.1, r.2)
    else
      let r := framesGo cdsStart cdsEnd rest cds
      ((-1) :: r.1, r.2)

/-- Source `exon_frames` (lines 39-54): one frame per exon, indexed in genomic
order.  The Python loop walks indices ascending for `+` and descending for
`-`; writing each index once, the result in genomic order is the processing
order output (reversed for `-`). -/
def exon_frames (cdsStart cdsEnd : ℤ) (exonStart exonEnd : List ℤ) (strand : String) : List ℤ :=
  let exons := exonStart.zip exonEnd
  if strand = "+" then (framesGo cdsStart cdsEnd exons 0).1
  else ((framesGo cdsStart cdsEnd (exons.reverse) 0).1).reverse

/-- The final value of the running count `cds` accumulated by `exon_frames`. -/
def exonFramesCount (cdsStart cdsEnd : ℤ) (exonStart exonEnd : List ℤ) (strand : String) : ℤ :=
  let exons := exonStart.zip exonEnd
  if strand = "+" then (framesGo cdsStart cdsEnd exons 0).2
  else (framesGo cdsStart cdsEnd (exons.reverse) 0).2

/-- The CDS-overlap length of one exon interval: the length of the
intersection with the CDS when nonempty, else 0. -/
def cdsOverlap (cdsStart cdsEnd : ℤ) (p : ℤ × ℤ) : ℤ :=
  let se := check_exon_frame p.1 p.2 cdsStart cdsEnd
  if se.1 < se.2 then se.2 - se.1 else 0

/-- The scan loop of `find_first_codon` (lines 61-66).  Python:
`for fr in range(len(frames)-1): if frames[fr] >= 0: exon_index = fr; break
else: return codon`.  The `else: return` fires on the first scanned index
whose frame is negative, so the loop never advances past `fr = 0`; when the
range `range(len(frames)-1)` is empty, `exon_index` keeps its initial 0. -/
def firstScan (frames : List ℤ) : Option ℕ :=
  if frames.length ≤ 1 then some 0
  else if 0 ≤ frames.getD 0 0 then some 0
  else none

/-- The scan loop of `find_last_codon` (lines 95-100).  Python:
`for fr in range(len(frames)-1,-1,-1): if frames[fr] >= 0: break
else: return [0]*6`.  Only `fr = len-1` is ever examined; an empty list
leaves `exon_index = 0`. -/
def lastScan (frames : List ℤ) : Option ℕ :=
  if frames.length = 0 then some 0
  else if 0 ≤ frames.getD (frames.length - 1) 0 then some (frames.length - 1)
  else none

/-- Source `find_first_codon` (lines 58-88).  The codon descriptor is the
six-element list `[start1, end1, start2, end2, exon1, exon2]`; `[0]*6` is the
absent descriptor. -/
def find_first_codon (frames : List ℤ) (strand : String) (cdsStart cdsEnd : ℤ)
    (exonStart exonEnd : List ℤ) : List ℤ :=
  match firstScan frames with
  | none => List.replicate 6 0
  | some exon_index =>
    let se := check_exon_frame (exonStart.getD exon_index 0) (exonEnd.getD exon_index 0)
      cdsStart cdsEnd
    let frame : ℤ :=
      if strand = "+" then frames.getD exon_index 0
      else (frames.getD exon_index 0 + (se.2 - se.1)) % 3
    if frame ≠ 0 then List.replicate 6 0
    else
      let c0 := cdsStart
      let c1 := cdsStart + min (cdsEnd - cdsStart) 3
      if c1 - c0 < 3 then
        let needed := 3 - (c1 - c0)
        if cdsEnd - cdsStart < needed then List.replicate 6 0
        else [c0, c1, cdsStart, cdsStart + needed, (exon_index : ℤ) + 1, (exon_index : ℤ)]
      else [c0, c1, 0, 0, (exon_index : ℤ), 0]

/-- Source `find_last_codon` (lines 92-122). -/
def find_last_codon (frames : List ℤ) (strand : String) (cdsStart cdsEnd : ℤ)
    (exonStart exonEnd : List ℤ) : List ℤ :=
  match lastScan frames with
  | none => List.replicate 6 0
  | some exon_index =>
    let se := check_exon_frame (exonStart.getD exon_index 0) (exonEnd.getD exon_index 0)
      cdsStart cdsEnd
    let frame : ℤ :=
      if strand = "-" then frames.getD exon_index 0
      else (frames.getD exon_index 0 + (se.2 - se.1)) % 3
    if frame ≠ 0 then List.replicate 6 0
    else
      let c0 := max cdsStart (cdsEnd - 3)
      let c1 := cdsEnd
      if c1 - c0 < 3 then
        let needed := 3 - (c1 - c0)
        if cdsEnd - cdsStart < needed then List.replicate 6 0
        else [c0, c1, cdsStart, cdsStart + needed, (exon_index : ℤ) - 1, (exon_index : ℤ)]
      else [c0, c1, 0, 0, (exon_index : ℤ), 0]

/-- Source `codon_complete` (lines 126-127). -/
def codon_complete (codon : List ℤ) : Bool :=
  decide ((codon.getD 1 0 - codon.getD 0 0) + (codon.getD 3 0 - codon.getD 2 0) = 3)

/-- Source `in_exon` (lines 131-132): note both comparisons are inclusive,
so the interval is treated as closed at `exonEnd`. -/
def in_exon (exon : ℕ) (pos : ℤ) (exonStarts exonEnds : List ℤ) : Bool :=
  decide (exonStarts.getD exon 0 ≤ pos ∧ pos ≤ exonEnds.getD exon 0)

/-- State of the `move_pos` while loop (lines 153-165): current exon index
(a Python int, which goes to -1 on backward exit), current position, and
remaining steps. -/
structure WalkState where
  exon : ℤ
  pos : ℤ
  steps : ℕ
  deriving DecidableEq

/-- One iteration of the `move_pos` while loop body (lines 154-165).
Forward cross-exon jumps do not touch `steps`; the backward branch
decrements `steps` inside its `if exon >= 0` block. -/
def moveStep (exonCount : ℕ) (exonStart exonEnd : List ℤ) (direction : ℤ)
    (st : WalkState) : WalkState :=
  if in_exon st.exon.toNat (st.pos + direction) exonStart exonEnd then
    ⟨st.exon, st.pos + direction, st.steps - 1⟩
  else if 0 ≤ direction then
    let exon := st.exon + 1
    if exon < (exonCount : ℤ) then ⟨exon, exonStart.getD exon.toNat 0, st.steps⟩
    else ⟨exon, st.pos, st.steps⟩
  else
    let exon := st.exon - 1
    if 0 ≤ exon then ⟨exon, exonEnd.getD exon.toNat 0 - 1, st.steps - 1⟩
    else ⟨exon, st.pos, st.steps⟩

/-- The guard of the `move_pos` while loop (line 153). -/
def walkCond (exonCount : ℕ) (st : WalkState) : Bool :=
  decide (0 ≤ st.exon ∧ st.exon < (exonCount : ℤ) ∧ 0 < st.steps)

/-- Fuelled iteration of the loop body.  `walkFuel_cond_false` below shows
the fuel chosen in `walk` always suffices for the guard to come out false,
so the fuel is invisible: `walk` computes exactly the loop of the source. -/
def walkFuel (exonCount : ℕ) (exonStart exonEnd : List ℤ) (direction : ℤ) :
    ℕ → WalkState → WalkState
  | 0, st => st
  | f + 1, st =>
    if walkCond exonCount st then
      walkFuel exonCount exonStart exonEnd direction f
        (moveStep exonCount exonStart exonEnd direction st)
    else st

/-- Strictly decreasing measure for the loop: every iteration with a true
guard lowers it (steps weighted above the exon-index distance to the exit). -/
def walkMeasure (exonCount : ℕ) (direction : ℤ) (st : WalkState) : ℕ :=
  st.steps * (exonCount + 1) +
    (if 0 ≤ direction then ((exonCount : ℤ) - st.exon).toNat else (st.exon + 1).toNat)

/-- The `move_pos` while loop (lines 151-165), run to completion. -/
def walk (exonCount : ℕ) (exonStart exonEnd : List ℤ) (direction : ℤ)
    (st : WalkState) : WalkState :=
  walkFuel exonCount exonStart exonEnd direction
    (walkMeasure exonCount direction st + 1) st

/-- The three ways `move_pos` aborts: the `assert` on line 138, the
`can't find` raise on line 149, and the `can't move` raise on line 170. -/
inductive MoveErr where
  | assertFail : MoveErr
  | cantFind : MoveErr
  | cantMove : MoveErr
  deriving DecidableEq

/-- The exon-finding loop of `move_pos` (lines 140-144): the first exon index
whose (closed) interval contains `pos`. -/
def findExon (exonCount : ℕ) (exonStart exonEnd : List ℤ) (pos : ℤ) : Option ℕ :=
  (List.range exonCount).find? (fun i => in_exon i pos exonStart exonEnd)

/-- Source `move_pos` (lines 136-172), with raised exceptions embedded as
`Except.error` values. -/
def move_pos (txStart txEnd : ℤ) (exonCount : ℕ) (exonStart exonEnd : List ℤ)
    (pos dist : ℤ) : Except MoveErr ℤ :=
  if ¬ (txStart ≤ pos ∧ pos ≤ txEnd) then Except.error MoveErr.assertFail
  else
    match findExon exonCount exonStart exonEnd pos with
    | none => Except.error MoveErr.cantFind
    | some i =>
      let direction : ℤ := if 0 ≤ dist then 1 else -1
      let fin := walk exonCount exonStart exonEnd direction ⟨(i : ℤ), pos, dist.natAbs⟩
      if 0 < fin.steps then Except.error MoveErr.cantMove else Except.ok fin.pos

/-- The record-dependent arguments of one `build_gtf_line` call (lines
195-221): feature type, 0-based half-open start and end, exon index (a
Python int, -1 for no exon attributes) and the frame value passed. -/
structure EmitCall where
  typeG : String
  start : ℤ
  stop : ℤ
  exonIdx : ℤ
  frame : ℤ
  deriving DecidableEq

/-- One line written by `run`: either a `build_gene_line` call (lines
175-191) or a `build_gtf_line` call. -/
inductive Emission where
  | gene (gname : String) (start stop : ℤ) : Emission
  | line (c : EmitCall) : Emission
  deriving DecidableEq

/-- The frame-to-phase conversion on line 199 of `build_gtf_line`:
`phase = '.' if frame < 0 else '0' if frame == 0 else '2' if frame == 1 else '1'`. -/
def frameToPhase (frame : ℤ) : String :=
  if frame < 0 then "." else if frame = 0 then "0" else if frame = 1 then "2" else "1"

/-- The structured content of a written GTF line: the fields of
`build_gtf_line` output (lines 195-221), with the 1-based start, the phase
column, and the exon number attribute when the exon index is nonnegative.
Textual tab-joining is I/O and not modelled; the `assert start <= end` on
line 196 is not modelled (no claim concerns it). -/
structure GtfLine where
  chrom : String
  source : String
  typeG : String
  start1 : ℤ
  stop : ℤ
  score : String
  strand : String
  phase : String
  geneId : String
  transcriptId : String
  exonNumber : Option ℤ
  deriving DecidableEq

/-- Source `build_gtf_line` (lines 195-221) as a pure function to a
structured line. -/
def build_gtf_line (source name chrom strand geneName : String) (exonCount : ℕ)
    (c : EmitCall) : GtfLine :=
  { chrom := chrom
    source := source
    typeG := c.typeG
    start1 := c.start + 1
    stop := c.stop
    score := "."
    strand := strand
    phase := frameToPhase c.frame
    geneId := geneName
    transcriptId := name
    exonNumber :=
      if 0 ≤ c.exonIdx then
        some (if strand = "-" then (exonCount : ℤ) - c.exonIdx else c.exonIdx + 1)
      else none }

/-- Source `write_features` (lines 225-242): the `build_gtf_line` calls made
for exon `i`, in order (leading UTR, CDS, trailing UTR). -/
def write_features (i : ℕ) (strand : String)
    (firstUtrEnd cdsStart cdsEnd lastUtrStart frame : ℤ)
    (exonStart exonEnd : List ℤ) : List EmitCall :=
  let es := exonStart.getD i 0
  let ee := exonEnd.getD i 0
  (if es < firstUtrEnd then
    [⟨if strand = "+" then "5UTR" else "3UTR", es, min ee firstUtrEnd, (i : ℤ), -1⟩]
   else []) ++
  (if cdsStart < ee ∧ cdsEnd > es then
    [⟨"CDS", max es cdsStart, min ee cdsEnd, (i : ℤ), frame⟩]
   else []) ++
  (if ee > lastUtrStart then
    [⟨if strand = "+" then "3UTR" else "5UTR", max lastUtrStart es, ee, (i : ℤ), -1⟩]
   else [])

/-- Source `write_codon` (lines 246-252): the first interval line always,
and when the second interval is nonempty a second line that reuses
`codon[1]` as its end and passes `codon[1] - codon[0]` as its frame. -/
def write_codon (typeG : String) (codon : List ℤ) : List EmitCall :=
  ⟨typeG, codon.getD 0 0, codon.getD 1 0, codon.getD 4 0, 0⟩ ::
  (if codon.getD 2 0 < codon.getD 3 0 then
    [⟨typeG, codon.getD 2 0, codon.getD 1 0, codon.getD 5 0,
      codon.getD 1 0 - codon.getD 0 0⟩]
   else [])

/-- One parsed input record with absolute exon bounds, as computed by `run`
on lines 259-272 before the geometric work starts. -/
structure BedRow where
  chrom : String
  txStart : ℤ
  txEnd : ℤ
  name : String
  strand : String
  cdsStart : ℤ
  cdsEnd : ℤ
  exonCount : ℕ
  exonStart : List ℤ
  exonEnd : List ℤ

/-- The `build_gtf_line` calls of one `run` (lines 294-310): the transcript
line, then per exon the exon line followed (for coding transcripts) by its
`write_features` block, then the codon lines.  `firstUtrEnd`/`lastUtrStart`
are the values captured on lines 281-282 (before the trim), while
`cdsStart2`/`cdsEnd2` are the possibly trimmed CDS bounds. -/
def runEmissions (strand : String) (txStart txEnd : ℤ) (exonCount : ℕ)
    (exonStart exonEnd : List ℤ) (frames first_codon last_codon : List ℤ)
    (firstUtrEnd cdsStart2 cdsEnd2 lastUtrStart : ℤ) : List EmitCall :=
  ⟨"transcript", txStart, txEnd, -1, -1⟩ ::
  ((List.range exonCount).flatMap fun x =>
    ⟨"exon", exonStart.getD x 0, exonEnd.getD x 0, (x : ℤ), -1⟩ ::
    (if cdsStart2 < cdsEnd2 then
      write_features x strand firstUtrEnd cdsStart2 cdsEnd2 lastUtrStart
        (frames.getD x 0) exonStart exonEnd
     else [])) ++
  (if strand ≠ "-" then
    (if codon_complete first_codon then write_codon "start_codon" first_codon else []) ++
    (if codon_complete last_codon then write_codon "stop_codon" last_codon else [])
   else
    (if codon_complete last_codon then write_codon "start_codon" last_codon else []) ++
    (if codon_complete first_codon then write_codon "stop_codon" first_codon else []))

/-- Source `run` (lines 256-310) for one record: computes frames and codons,
performs the strand-appropriate stop-codon trim through `move_pos` (a raise
there propagates as `Except.error`), emits the gene line when the gene name
is new, and registers it.  Returns the updated registry and the emissions. -/
def run (isoforms : String → String) (genes : List String) (r : BedRow) :
    Except MoveErr (List String × List Emission) :=
  let geneName := isoforms r.name
  let frames := exon_frames r.cdsStart r.cdsEnd r.exonStart r.exonEnd r.strand
  let first_codon := find_first_codon frames r.strand r.cdsStart r.cdsEnd r.exonStart r.exonEnd
  let last_codon := find_last_codon frames r.strand r.cdsStart r.cdsEnd r.exonStart r.exonEnd
  match (if r.strand = "+" ∧ codon_complete last_codon then
          move_pos r.txStart r.txEnd r.exonCount r.exonStart r.exonEnd r.cdsEnd (-3)
         else Except.ok r.cdsEnd) with
  | Except.error e => Except.error e
  | Except.ok cdsEnd2 =>
    match (if r.strand = "-" ∧ codon_complete first_codon then
            move_pos r.txStart r.txEnd r.exonCount r.exonStart r.exonEnd r.cdsStart 3
           else Except.ok r.cdsStart) with
    | Except.error e => Except.error e
    | Except.ok cdsStart2 =>
      let body := (runEmissions r.strand r.txStart r.txEnd r.exonCount r.exonStart
        r.exonEnd frames first_codon last_codon r.cdsStart cdsStart2 cdsEnd2
        r.cdsEnd).map Emission.line
      if geneName ∈ genes then Except.ok (genes, body)
      else Except.ok (geneName :: genes, Emission.gene geneName r.txStart r.txEnd :: body)

/-- The `main` loop (lines 351-353) over a list of records, threading the
gene registry; an exception from `run` aborts the whole loop, keeping the
output written so far. -/
def runAll (isoforms : String → String) (genes : List String) :
    List BedRow → List String × List Emission
  | [] => (genes, [])
  | r :: rs =>
    match run isoforms genes r with
    | Except.error _ => (genes, [])
    | Except.ok (genes2, out) =>
      let rec2 := runAll isoforms genes2 rs
      (rec2.1, out ++ rec2.2)

/-- Number of gene feature lines for gene name `g` in an emission list. -/
def countGene (g : String) (out : List Emission) : ℕ :=
  out.countP fun e =>
    match e with
    | Emission.gene gname _ _ => decide (gname = g)
    | Emission.line _ => false

/-! ### Walk loop helper lemmas -/

theorem moveStep_measure (exonCount : ℕ) (ss es : List ℤ) (d : ℤ) (st : WalkState)
    (h : walkCond exonCount st = true) :
    walkMeasure exonCount d (moveStep exonCount ss es d st) < walkMeasure exonCount d st := by
  have h' : 0 ≤ st.exon ∧ st.exon < (exonCount : ℤ) ∧ 0 < st.steps := by
    simpa [walkCond] using h
  obtain ⟨h1, h2, h3⟩ := h'
  have hk : st.steps * (exonCount + 1) = (st.steps - 1) * (exonCount + 1) + (exonCount + 1) := by
    obtain ⟨m, hm⟩ : ∃ m, st.steps = m + 1 := ⟨st.steps - 1, by omega⟩
    rw [hm]
    simp [Nat.add_mul]
  by_cases hin : in_exon st.exon.toNat (st.pos + d) ss es = true
  · have hres : moveStep exonCount ss es d st = ⟨st.exon, st.pos + d, st.steps - 1⟩ := by
      simp [moveStep, hin]
    rw [hres]
    by_cases hd : 0 ≤ d <;> simp [walkMeasure, hd] <;> omega
  · by_cases hd : 0 ≤ d
    · have hres : (moveStep exonCount ss es d st).exon = st.exon + 1 ∧
          (moveStep exonCount ss es d st).steps = st.steps := by
        simp only [moveStep, hin, Bool.false_eq_true, if_false, hd, if_true]
        split <;> exact ⟨rfl, rfl⟩
      simp only [walkMeasure, hres.1, hres.2, hd, if_true]
      omega
    · by_cases hx : 0 ≤ st.exon - 1
      · have hres : moveStep exonCount ss es d st =
            ⟨st.exon - 1, es.getD (st.exon - 1).toNat 0 - 1, st.steps - 1⟩ := by
          simp [moveStep, hin, hd, hx]
        rw [hres]
        simp only [walkMeasure, hd, if_false]
        omega
      · have hres : moveStep exonCount ss es d st = ⟨st.exon - 1, st.pos, st.steps⟩ := by
          simp [moveStep, hin, hd, hx]
        rw [hres]
        simp only [walkMeasure, hd, if_false]
        omega

theorem walkFuel_cond_false (exonCount : ℕ) (ss es : List ℤ) (d : ℤ) :
    ∀ f st, walkMeasure exonCount d st < f →
      walkCond exonCount (walkFuel exonCount ss es d f st) = false := by
  intro f
  induction f with
  | zero => intro st h; exact absurd h (Nat.not_lt_zero _)
  | succ f ih =>
    intro st h
    by_cases hc : walkCond exonCount st = true
    · rw [walkFuel, if_pos hc]
      exact ih _ (lt_of_lt_of_le (moveStep_measure exonCount ss es d st hc)
        (Nat.lt_succ_iff.mp h))
    · rw [walkFuel, if_neg hc]
      exact Bool.not_eq_true _ ▸ Bool.of_not_eq_true hc

theorem walk_cond_false (exonCount : ℕ) (ss es : List ℤ) (d : ℤ) (st : WalkState) :
    walkCond exonCount (walk exonCount ss es d st) = false :=
  walkFuel_cond_false exonCount ss es d _ st (Nat.lt_succ_self _)

theorem findExon_none_iff (exonCount : ℕ) (ss es : List ℤ) (pos : ℤ) :
    findExon exonCount ss es pos = none ↔ ∀ i < exonCount, in_exon i pos ss es = false := by
  simp [findExon, List.find?_eq_none, List.mem_range]

theorem move_pos_eq_cantFind (txStart txEnd : ℤ) (exonCount : ℕ) (ss es : List ℤ)
    (pos dist : ℤ) (h1 : txStart ≤ pos) (h2 : pos ≤ txEnd)
    (hfe : findExon exonCount ss es pos = none) :
    move_pos txStart txEnd exonCount ss es pos dist = Except.error MoveErr.cantFind := by
  rw [move_pos, if_neg (not_not_intro ⟨h1, h2⟩), hfe]

theorem move_pos_eq_walk (txStart txEnd : ℤ) (exonCount : ℕ) (ss es : List ℤ)
    (pos dist : ℤ) (i : ℕ) (h1 : txStart ≤ pos) (h2 : pos ≤ txEnd)
    (hfe : findExon exonCount ss es pos = some i) :
    move_pos txStart txEnd exonCount ss es pos dist =
      (if 0 < (walk exonCount ss es (if 0 ≤ dist then 1 else -1)
          ⟨(i : ℤ), pos, dist.natAbs⟩).steps then Except.error MoveErr.cantMove
       else Except.ok (walk exonCount ss es (if 0 ≤ dist then 1 else -1)
          ⟨(i : ℤ), pos, dist.natAbs⟩).pos) := by
  rw [move_pos, if_neg (not_not_intro ⟨h1, h2⟩), hfe]

theorem findExon_some_in_exon (exonCount : ℕ) (ss es : List ℤ) (pos : ℤ) (i : ℕ)
    (hfe : findExon exonCount ss es pos = some i) :
    in_exon i pos ss es = true ∧ i < exonCount := by
  have hfe' : (List.range exonCount).find? (fun k => in_exon k pos ss es) = some i := hfe
  have hp := List.find?_some hfe'
  have hm := List.mem_range.mp (List.mem_of_find?_eq_some hfe')
  exact ⟨by simpa using hp, hm⟩

/-- Under the assert precondition, `move_pos` returns the position-not-found
error exactly when no exon (closed) interval contains `pos`. -/
theorem move_pos_cantFind_iff (txStart txEnd : ℤ) (exonCount : ℕ) (ss es : List ℤ)
    (pos dist : ℤ) (h1 : txStart ≤ pos) (h2 : pos ≤ txEnd) :
    move_pos txStart txEnd exonCount ss es pos dist = Except.error MoveErr.cantFind ↔
      ∀ i < exonCount, in_exon i pos ss es = false := by
  cases hfe : findExon exonCount ss es pos with
  | none =>
    rw [move_pos_eq_cantFind txStart txEnd exonCount ss es pos dist h1 h2 hfe]
    simpa using (findExon_none_iff exonCount ss es pos).mp hfe
  | some i =>
    obtain ⟨hin, hilt⟩ := findExon_some_in_exon exonCount ss es pos i hfe
    rw [move_pos_eq_walk txStart txEnd exonCount ss es pos dist i h1 h2 hfe]
    constructor
    · intro hEq
      by_cases hs : 0 < (walk exonCount ss es (if 0 ≤ dist then 1 else -1)
          ⟨(i : ℤ), pos, dist.natAbs⟩).steps
      · rw [if_pos hs] at hEq
        cases hEq
      · rw [if_neg hs] at hEq
        cases hEq
    · intro hAll
      exact absurd (hAll i hilt) (by rw [hin]; simp)

/-! ### Claims -/

/-- Claim C1 (code bug): the leading and trailing codon scans do not select
the first exon in scan order whose frame is not -1.  The Python for/else
loop returns the absent descriptor as soon as the first scanned exon has
frame -1: with frames `[-1, 0]` the leading scan returns absent although
exon 1 is coding, and with frames `[0, -1]` the trailing scan returns
absent although exon 0 is coding, contradicting the inline comment
"extracts the index of the first exon that has a valid CDS". -/
theorem C1_scan_bug :
    exon_frames 20 26 [0, 20] [10, 30] "+" = [-1, 0] ∧
    find_first_codon [-1, 0] "+" 20 26 [0, 20] [10, 30] = [0, 0, 0, 0, 0, 0] ∧
    exon_frames 4 10 [0, 20] [10, 30] "+" = [0, -1] ∧
    find_last_codon [0, -1] "+" 4 10 [0, 20] [10, 30] = [0, 0, 0, 0, 0, 0] := by
  decide

/-- Claim C2 (code bug): codon descriptors are built from the CDS bounds
alone and are never split at an exon boundary.  In the two-exon scenario
with `cdsEnd` one base into exon 1 and the other two stop-codon bases at
the end of exon 0 (exons `[0,10)`, `[20,30)`, CDS `[2,21)`), the trailing
descriptor is the single genomic interval `[18,21)` (overlapping the
intron: 18 < 20 = exonStart[1]) with an empty second interval, not the
claimed two per-exon intervals; symmetrically the leading descriptor for
CDS `[8,26)` is the single interval `[8,11)` crossing the intron. -/
theorem C2_split_bug :
    exon_frames 2 21 [0, 20] [10, 30] "+" = [0, 2] ∧
    find_last_codon [0, 2] "+" 2 21 [0, 20] [10, 30] = [18, 21, 0, 0, 1, 0] ∧
    codon_complete [18, 21, 0, 0, 1, 0] = true ∧
    exon_frames 8 26 [0, 20] [10, 30] "+" = [0, 2] ∧
    find_first_codon [0, 2] "+" 8 26 [0, 20] [10, 30] = [8, 11, 0, 0, 0, 0] := by
  decide

/-- Claim C3 counterexample: a backward cross-exon jump does not consume
zero units of distance.  From state (exon 1, pos 20, 3 steps) with
direction -1 over exons `[0,10]`, `[20,30]`, stepping to 19 leaves exon 1,
and the jump lands on `exonEnd[0] - 1 = 9` with `steps` decremented from 3
to 2, refuting the claim that jumps are free in both directions. -/
theorem C3_counterexample :
    in_exon 1 19 [0, 20] [10, 30] = false ∧
    moveStep 2 [0, 20] [10, 30] (-1) ⟨1, 20, 3⟩ = ⟨0, 9, 2⟩ ∧
    (moveStep 2 [0, 20] [10, 30] (-1) ⟨1, 20, 3⟩).steps ≠ 3 := by
  decide

/-- Claim C3 (amended): a step staying inside the current exon consumes
exactly one unit of distance; a forward cross-exon jump consumes zero
units; a backward cross-exon jump lands on the last base of the adjacent
exon and consumes one unit. -/
theorem C3_amended (exonCount : ℕ) (ss es : List ℤ) (d : ℤ) (st : WalkState) :
    (in_exon st.exon.toNat (st.pos + d) ss es = true →
      moveStep exonCount ss es d st = ⟨st.exon, st.pos + d, st.steps - 1⟩) ∧
    (in_exon st.exon.toNat (st.pos + d) ss es = false → 0 ≤ d →
      (moveStep exonCount ss es d st).steps = st.steps ∧
      (moveStep exonCount ss es d st).exon = st.exon + 1) ∧
    (in_exon st.exon.toNat (st.pos + d) ss es = false → d < 0 → 0 ≤ st.exon - 1 →
      moveStep exonCount ss es d st =
        ⟨st.exon - 1, es.getD (st.exon - 1).toNat 0 - 1, st.steps - 1⟩) := by
  refine ⟨fun h => ?_, fun h hd => ?_, fun h hd hx => ?_⟩
  · simp [moveStep, h]
  · simp only [moveStep, h, Bool.false_eq_true, if_false, hd, if_true]
    split <;> exact ⟨rfl, rfl⟩
  · have hd' : ¬ 0 ≤ d := by omega
    simp [moveStep, h, hd', hx]

/-- Claim C3 witness: a within-exon step at a concrete input consumes
exactly one unit. -/
theorem C3_witness : moveStep 1 [0] [10] 1 ⟨0, 3, 2⟩ = ⟨0, 4, 1⟩ := by
  rw [(C3_amended 1 [0] [10] 1 ⟨0, 3, 2⟩).1 (by decide)]
  decide

/-- Claim C8: the phase column of every built GTF line is the fixed lookup
of the frame value passed for the line: -1 to ".", 0 to "0", 1 to "2" and
2 to "1". -/
theorem C8_phase_lookup (source name chrom strand geneName : String) (exonCount : ℕ)
    (c : EmitCall) :
    (build_gtf_line source name chrom strand geneName exonCount
      { c with frame := -1 }).phase = "." ∧
    (build_gtf_line source name chrom strand geneName exonCount
      { c with frame := 0 }).phase = "0" ∧
    (build_gtf_line source name chrom strand geneName exonCount
      { c with frame := 1 }).phase = "2" ∧
    (build_gtf_line source name chrom strand geneName exonCount
      { c with frame := 2 }).phase = "1" := by
  refine ⟨?_, ?_, ?_, ?_⟩ <;> simp [build_gtf_line, frameToPhase]

/-- Claim C10: when the second codon interval is nonempty, the second
codon line emitted by `write_codon` ends at `codon[1]` (the end of the
first interval, not `codon[3]`) and its frame argument is the first
interval length `codon[1] - codon[0]`. -/
theorem C10_second_codon_line (typeG : String) (codon : List ℤ)
    (h : codon.getD 2 0 < codon.getD 3 0) :
    write_codon typeG codon =
      [⟨typeG, codon.getD 0 0, codon.getD 1 0, codon.getD 4 0, 0⟩,
       ⟨typeG, codon.getD 2 0, codon.getD 1 0, codon.getD 5 0,
        codon.getD 1 0 - codon.getD 0 0⟩] := by
  simp only [write_codon, if_pos h]

/-- Claim C10 witness: at the concrete split descriptor
`[10, 12, 20, 21, 0, 1]` the second line ends at 12 and carries frame 2. -/
theorem C10_witness :
    write_codon "stop_codon" [10, 12, 20, 21, 0, 1] =
      [⟨"stop_codon", 10, 12, 0, 0⟩, ⟨"stop_codon", 20, 12, 1, 2⟩] := by
  rw [C10_second_codon_line "stop_codon" [10, 12, 20, 21, 0, 1] (by decide)]
  decide

/-- Claim C7 counterexample: `move_pos` has a third failure mode not covered
by the claim.  The `assert txStart <= pos <= txEnd` on line 138 fires before
the exon search: with transcript bounds `[0, 5]`, a single exon `[0, 10]`,
position 7 and distance 0, the position lies inside the exon and the
distance is trivially consumable, yet the call raises (an `AssertionError`,
not the claimed `PositionError`) instead of returning a position. -/
theorem C7_counterexample :
    move_pos 0 5 1 [0] [10] 7 0 = Except.error MoveErr.assertFail ∧
    in_exon 0 7 [0] [10] = true := by
  decide

/-- Claim C7 (amended): under the assert precondition
`txStart ≤ pos ≤ txEnd`, `move_pos` fails with the position-not-found error
exactly when no exon (closed) interval contains `pos`; it never fails the
assert; and once an exon is found, it fails with the cannot-move error
exactly when the walk ends with distance left over, in which case the walk
has run off the exon list (final exon index outside `[0, exonCount)`), and
otherwise returns the walked position without error. -/
theorem C7_amended (txStart txEnd : ℤ) (exonCount : ℕ) (ss es : List ℤ) (pos dist : ℤ)
    (h1 : txStart ≤ pos) (h2 : pos ≤ txEnd) :
    (move_pos txStart txEnd exonCount ss es pos dist = Except.error MoveErr.cantFind ↔
      ∀ i < exonCount, in_exon i pos ss es = false) ∧
    move_pos txStart txEnd exonCount ss es pos dist ≠ Except.error MoveErr.assertFail ∧
    (∀ i, findExon exonCount ss es pos = some i →
      (0 < (walk exonCount ss es (if 0 ≤ dist then 1 else -1)
            ⟨(i : ℤ), pos, dist.natAbs⟩).steps →
        move_pos txStart txEnd exonCount ss es pos dist = Except.error MoveErr.cantMove ∧
        ((walk exonCount ss es (if 0 ≤ dist then 1 else -1)
            ⟨(i : ℤ), pos, dist.natAbs⟩).exon < 0 ∨
         (exonCount : ℤ) ≤ (walk exonCount ss es (if 0 ≤ dist then 1 else -1)
            ⟨(i : ℤ), pos, dist.natAbs⟩).exon)) ∧
      ((walk exonCount ss es (if 0 ≤ dist then 1 else -1)
          ⟨(i : ℤ), pos, dist.natAbs⟩).steps = 0 →
        move_pos txStart txEnd exonCount ss es pos dist =
          Except.ok (walk exonCount ss es (if 0 ≤ dist then 1 else -1)
            ⟨(i : ℤ), pos, dist.natAbs⟩).pos)) := by
  refine ⟨move_pos_cantFind_iff txStart txEnd exonCount ss es pos dist h1 h2, ?_, ?_⟩
  · cases hfe : findExon exonCount ss es pos with
    | none =>
      rw [move_pos_eq_cantFind txStart txEnd exonCount ss es pos dist h1 h2 hfe]
      simp
    | some i =>
      rw [move_pos_eq_walk txStart txEnd exonCount ss es pos dist i h1 h2 hfe]
      by_cases hs : 0 < (walk exonCount ss es (if 0 ≤ dist then 1 else -1)
          ⟨(i : ℤ), pos, dist.natAbs⟩).steps
      · rw [if_pos hs]
        simp
      · rw [if_neg hs]
        simp
  · intro j hj
    have hmv := move_pos_eq_walk txStart txEnd exonCount ss es pos dist j h1 h2 hj
    refine ⟨fun hs => ⟨by rw [hmv, if_pos hs], ?_⟩, fun hs => by rw [hmv, if_neg (by omega)]⟩
    have hc := walk_cond_false exonCount ss es (if 0 ≤ dist then 1 else -1)
      ⟨(j : ℤ), pos, dist.natAbs⟩
    have hc' : ¬ (0 ≤ (walk exonCount ss es (if 0 ≤ dist then 1 else -1)
        ⟨(j : ℤ), pos, dist.natAbs⟩).exon ∧
        (walk exonCount ss es (if 0 ≤ dist then 1 else -1)
          ⟨(j : ℤ), pos, dist.natAbs⟩).exon < (exonCount : ℤ) ∧
        0 < (walk exonCount ss es (if 0 ≤ dist then 1 else -1)
          ⟨(j : ℤ), pos, dist.natAbs⟩).steps) := by
      simpa [walkCond] using hc
    omega

/-- Claim C7 witness: a concrete successful backward walk, obtained from
the amended characterisation: from position 10 over the single exon
`[0, 10]`, distance -3 returns position 7 without error. -/
theorem C7_witness : move_pos 0 10 1 [0] [10] 10 (-3) = Except.ok 7 := by
  have h := C7_amended 0 10 1 [0] [10] 10 (-3) (by norm_num) (by norm_num)
  have hfe : findExon 1 [0] [10] 10 = some 0 := by decide
  have hs : (walk 1 [0] [10] (if (0 : ℤ) ≤ -3 then 1 else -1)
      ⟨((0 : ℕ) : ℤ), 10, Int.natAbs (-3)⟩).steps = 0 := by decide
  have hok := (h.2.2 0 hfe).2 hs
  rw [hok]
  decide

/-- Claim C9: `in_exon` treats exon intervals as closed on both ends, so a
position equal to `exonEnd[i]` is inside exon `i` whenever the exon is
nonempty; consequently a `move_pos` call starting at such a position (with
the assert precondition satisfied, as it is for `cdsEnd` within the
transcript bounds) never returns the position-not-found error. -/
theorem C9_closed_end (txStart txEnd : ℤ) (exonCount : ℕ) (ss es : List ℤ)
    (dist : ℤ) (i : ℕ) (hi : i < exonCount) (hse : ss.getD i 0 ≤ es.getD i 0) :
    in_exon i (es.getD i 0) ss es = true ∧
    (txStart ≤ es.getD i 0 → es.getD i 0 ≤ txEnd →
      move_pos txStart txEnd exonCount ss es (es.getD i 0) dist ≠
        Except.error MoveErr.cantFind) := by
  have hmem : in_exon i (es.getD i 0) ss es = true := by
    unfold in_exon
    rw [decide_eq_true_eq]
    exact ⟨hse, le_refl _⟩
  refine ⟨hmem, fun hA hB => ?_⟩
  intro hEq
  have hAll := (move_pos_cantFind_iff txStart txEnd exonCount ss es (es.getD i 0) dist
    hA hB).mp hEq
  exact absurd (hAll i hi) (by rw [hmem]; simp)

/-- Claim C9 witness: with exon `[0, 300]` and `cdsEnd = 300` equal to the
exon end, the stop-codon trim walk from 300 by -3 does not hit the
position-not-found branch (it in fact succeeds). -/
theorem C9_witness :
    in_exon 0 300 [0] [300] = true ∧
    move_pos 0 300 1 [0] [300] 300 (-3) ≠ Except.error MoveErr.cantFind := by
  have h := C9_closed_end 0 300 1 [0] [300] (-3) 0 (by norm_num) (by decide)
  exact ⟨h.1, h.2 (by decide) (by decide)⟩

/-! ### CDS overlap sum (claim C5) -/

theorem framesGo_count (cdsStart cdsEnd : ℤ) (l : List (ℤ × ℤ)) :
    ∀ c : ℤ, (framesGo cdsStart cdsEnd l c).2 =
      c + (l.map (cdsOverlap cdsStart cdsEnd)).sum := by
  induction l with
  | nil => intro c; simp [framesGo]
  | cons p rest ih =>
    intro c
    by_cases h : (check_exon_frame p.1 p.2 cdsStart cdsEnd).1 <
        (check_exon_frame p.1 p.2 cdsStart cdsEnd).2
    · simp only [framesGo, h, if_true, List.map_cons, List.sum_cons, ih, cdsOverlap]
      ring
    · simp only [framesGo, h, if_false, List.map_cons, List.sum_cons, ih, cdsOverlap]
      ring

theorem sumOverlap_zero (cdsStart cdsEnd : ℤ) (h : cdsEnd ≤ cdsStart) :
    ∀ l : List (ℤ × ℤ), (l.map (cdsOverlap cdsStart cdsEnd)).sum = 0 := by
  intro l
  induction l with
  | nil => simp
  | cons p rest ih =>
    simp only [List.map_cons, List.sum_cons, ih]
    have hov : cdsOverlap cdsStart cdsEnd p = 0 := by
      simp only [cdsOverlap, check_exon_frame]
      rw [if_neg (by omega)]
    rw [hov]
    ring

theorem cdsOverlap_start_irrel (cdsEnd a b : ℤ) (q : ℤ × ℤ) (ha : a ≤ q.1) (hb : b ≤ q.1) :
    cdsOverlap a cdsEnd q = cdsOverlap b cdsEnd q := by
  simp only [cdsOverlap, check_exon_frame]
  rw [max_eq_left ha, max_eq_left hb]

theorem sumOverlap_eq (cdsEnd : ℤ) (l : List (ℤ × ℤ)) :
    ∀ cdsStart : ℤ, cdsStart ≤ cdsEnd →
    (∀ p ∈ l, p.1 < p.2) →
    l.Pairwise (fun a b => a.2 ≤ b.1) →
    (∀ x : ℤ, cdsStart ≤ x → x < cdsEnd → ∃ p ∈ l, p.1 ≤ x ∧ x < p.2) →
    (l.map (cdsOverlap cdsStart cdsEnd)).sum = cdsEnd - cdsStart := by
  induction l with
  | nil =>
    intro cs h1 _ _ hcov
    by_cases hlt : cs < cdsEnd
    · obtain ⟨p, hp, _⟩ := hcov cs le_rfl hlt
      cases hp
    · simp only [List.map_nil, List.sum_nil]
      omega
  | cons p rest ih =>
    intro cs h1 hlt hpw hcov
    rcases List.pairwise_cons.mp hpw with ⟨hpb, hpw'⟩
    have hp12 : p.1 < p.2 := hlt p (List.mem_cons_self p rest)
    by_cases hce : cdsEnd ≤ cs
    · rw [sumOverlap_zero cs cdsEnd hce]
      omega
    push_neg at hce
    have hs_le : p.1 ≤ cs := by
      obtain ⟨q, hq, hq1, hq2⟩ := hcov cs le_rfl hce
      rcases List.mem_cons.mp hq with rfl | h
      · exact hq1
      · have := hpb q h
        omega
    by_cases he : p.2 ≤ cs
    · have hov : cdsOverlap cs cdsEnd p = 0 := by
        simp only [cdsOverlap, check_exon_frame]
        rw [if_neg (by omega)]
      have hcov' : ∀ x : ℤ, cs ≤ x → x < cdsEnd → ∃ q ∈ rest, q.1 ≤ x ∧ x < q.2 := by
        intro x hx1 hx2
        obtain ⟨q, hq, hq1, hq2⟩ := hcov x hx1 hx2
        rcases List.mem_cons.mp hq with rfl | h
        · exact absurd hq2 (by omega)
        · exact ⟨q, h, hq1, hq2⟩
      simp only [List.map_cons, List.sum_cons, hov]
      rw [ih cs h1 (fun q hq => hlt q (List.mem_cons_of_mem _ hq)) hpw' hcov']
      ring
    · push_neg at he
      have hov : cdsOverlap cs cdsEnd p = min p.2 cdsEnd - cs := by
        simp only [cdsOverlap, check_exon_frame]
        rw [max_eq_right hs_le, if_pos (by omega)]
      have hcov' : ∀ x : ℤ, min p.2 cdsEnd ≤ x → x < cdsEnd →
          ∃ q ∈ rest, q.1 ≤ x ∧ x < q.2 := by
        intro x hx1 hx2
        obtain ⟨q, hq, hq1, hq2⟩ := hcov x (by omega) hx2
        rcases List.mem_cons.mp hq with rfl | h
        · exact absurd hq2 (by omega)
        · exact ⟨q, h, hq1, hq2⟩
      have hmapeq : List.map (cdsOverlap cs cdsEnd) rest =
          List.map (cdsOverlap (min p.2 cdsEnd) cdsEnd) rest := by
        apply List.map_congr_left
        intro q hq
        have hq1 : p.2 ≤ q.1 := hpb q hq
        exact cdsOverlap_start_irrel cdsEnd cs (min p.2 cdsEnd) q (by omega) (by omega)
      simp only [List.map_cons, List.sum_cons, hov, hmapeq]
      rw [ih (min p.2 cdsEnd) (by omega)
        (fun q hq => hlt q (List.mem_cons_of_mem _ hq)) hpw' hcov']
      omega

/-- Claim C5 counterexample: the §3 invariants alone do not force the
running count to equal `cdsEnd - cdsStart`.  With exons `[0,10)`, `[20,30)`
(nonempty, disjoint, strictly ascending), transcript `[0,30)` and CDS
`[12,25)` (so `txStart ≤ cdsStart ≤ cdsEnd ≤ txEnd` holds), the CDS start
lies in the intron and the accumulated count is 5, not 13. -/
theorem C5_counterexample :
    ((0 : ℤ) ≤ 12 ∧ (12 : ℤ) ≤ 25 ∧ (25 : ℤ) ≤ 30) ∧
    (∀ p ∈ (([0, 20] : List ℤ).zip [10, 30]), p.1 < p.2) ∧
    (([0, 20] : List ℤ).zip [10, 30]).Pairwise (fun a b => a.2 ≤ b.1) ∧
    exonFramesCount 12 25 [0, 20] [10, 30] "+" = 5 ∧
    (5 : ℤ) ≠ 25 - 12 := by
  refine ⟨by norm_num, by decide, by decide, by decide, by norm_num⟩

/-- Claim C5 (amended): for a coding transcript whose exons are nonempty,
sorted and disjoint, and whose CDS interval is covered by the exons, the
running count accumulated by `exon_frames` (the sum of the nonempty
exon/CDS intersection lengths) equals `cdsEnd - cdsStart`, on either
strand and against the pre-trim CDS bounds. -/
theorem C5_amended (cdsStart cdsEnd : ℤ) (exonStart exonEnd : List ℤ) (strand : String)
    (h1 : cdsStart ≤ cdsEnd)
    (h2 : ∀ p ∈ exonStart.zip exonEnd, p.1 < p.2)
    (h3 : (exonStart.zip exonEnd).Pairwise fun a b => a.2 ≤ b.1)
    (h4 : ∀ x : ℤ, cdsStart ≤ x → x < cdsEnd →
      ∃ p ∈ exonStart.zip exonEnd, p.1 ≤ x ∧ x < p.2) :
    exonFramesCount cdsStart cdsEnd exonStart exonEnd strand = cdsEnd - cdsStart := by
  have hsum := sumOverlap_eq cdsEnd (exonStart.zip exonEnd) cdsStart h1 h2 h3 h4
  by_cases hstr : strand = "+"
  · simp only [exonFramesCount, hstr, if_true]
    rw [framesGo_count]
    omega
  · simp only [exonFramesCount, hstr, if_false]
    rw [framesGo_count, List.map_reverse, List.sum_reverse]
    omega

/-- Claim C5 witness: a single exon `[0,30)` covering the CDS `[2,25)`
yields running count 23. -/
theorem C5_witness : exonFramesCount 2 25 [0] [30] "+" = 23 := by
  have h := C5_amended 2 25 [0] [30] "+" (by norm_num) (by decide) (by decide)
    (fun x hx1 hx2 => ⟨(0, 30), by decide, by constructor <;> omega⟩)
  rw [h]
  norm_num

/-! ### Gene registry (claim C6) -/

theorem countGene_map_line (g : String) (l : List EmitCall) :
    countGene g (l.map Emission.line) = 0 := by
  induction l with
  | nil => rfl
  | cons c rest ih =>
    rw [List.map_cons]
    unfold countGene at ih ⊢
    rw [List.countP_cons]
    simp [ih]

theorem countGene_append (g : String) (a b : List Emission) :
    countGene g (a ++ b) = countGene g a + countGene g b := by
  simp [countGene, List.countP_append]

theorem countGene_gene_cons (g gn : String) (s e : ℤ) (rest : List Emission) :
    countGene g (Emission.gene gn s e :: rest) =
      countGene g rest + (if gn = g then 1 else 0) := by
  simp [countGene, List.countP_cons]

theorem run_ok_inv (iso : String → String) (genes : List String) (r : BedRow)
    (p : List String × List Emission) (hok : run iso genes r = Except.ok p) :
    p.1 = (if iso r.name ∈ genes then genes else iso r.name :: genes) ∧
    (∀ g : String, countGene g p.2 =
      if g = iso r.name ∧ iso r.name ∉ genes then 1 else 0) := by
  simp only [run] at hok
  split at hok
  · exact Except.noConfusion hok
  · split at hok
    · exact Except.noConfusion hok
    · by_cases hg : iso r.name ∈ genes
      · rw [if_pos hg] at hok
        cases hok
        refine ⟨by rw [if_pos hg], fun g => ?_⟩
        rw [countGene_map_line, if_neg (by tauto)]
      · rw [if_neg hg] at hok
        cases hok
        refine ⟨by rw [if_neg hg], fun g => ?_⟩
        rw [countGene_gene_cons, countGene_map_line]
        by_cases hEq : g = iso r.name
        · rw [if_pos hEq.symm, if_pos ⟨hEq, hg⟩]
        · rw [if_neg (fun h => hEq h.symm), if_neg (fun h => hEq h.1)]

theorem runAll_registry (iso : String → String) (rows : List BedRow) :
    ∀ (genes : List String) (g : String),
      (∀ x ∈ genes, x ∈ (runAll iso genes rows).1) ∧
      countGene g (runAll iso genes rows).2 =
        (if g ∈ (runAll iso genes rows).1 ∧ g ∉ genes then 1 else 0) := by
  induction rows with
  | nil =>
    intro genes g
    refine ⟨fun x hx => by simpa [runAll] using hx, ?_⟩
    simp only [runAll, countGene, List.countP_nil]
    rw [if_neg (by tauto)]
  | cons r rs ih =>
    intro genes g
    cases hrun : run iso genes r with
    | error e =>
      refine ⟨fun x hx => by simpa [runAll, hrun] using hx, ?_⟩
      simp only [runAll, hrun, countGene, List.countP_nil]
      rw [if_neg (by tauto)]
    | ok p =>
      obtain ⟨g2, out⟩ := p
      obtain ⟨hreg, hcount⟩ := run_ok_inv iso genes r (g2, out) hrun
      simp only at hreg
      have hra : runAll iso genes (r :: rs) =
          ((runAll iso g2 rs).1, out ++ (runAll iso g2 rs).2) := by
        simp [runAll, hrun]
      have hsub : ∀ x ∈ genes, x ∈ g2 := by
        intro x hx
        rw [hreg]
        split
        · exact hx
        · exact List.mem_cons_of_mem _ hx
      have hmono := fun x => (ih g2 x).1
      refine ⟨fun x hx => by rw [hra]; exact (hmono x) x (hsub x hx), ?_⟩
      rw [hra]
      simp only
      rw [countGene_append, hcount g, (ih g2 g).2]
      by_cases hging : g ∈ genes
      · have hgg2 : g ∈ g2 := hsub g hging
        rw [if_neg (by rintro ⟨rfl, hn⟩; exact hn hging), if_neg (by tauto),
          if_neg (by tauto)]
      · by_cases hEq : g = iso r.name
        · have hnotg : iso r.name ∉ genes := hEq ▸ hging
          have hgg2 : g ∈ g2 := by
            rw [hreg, if_neg hnotg, hEq]
            exact List.mem_cons_self _ _
          have hgRf : g ∈ (runAll iso g2 rs).1 := (hmono g) g hgg2
          rw [if_pos ⟨hEq, hnotg⟩, if_neg (by tauto), if_pos ⟨hgRf, hging⟩]
        · have hgg2 : g ∉ g2 := by
            rw [hreg]
            split
            · exact hging
            · intro hmem
              rcases List.mem_cons.mp hmem with h | h
              · exact hEq h
              · exact hging h
          rw [if_neg (by tauto)]
          by_cases hgRf : g ∈ (runAll iso g2 rs).1
          · rw [if_pos ⟨hgRf, hgg2⟩, if_pos ⟨hgRf, hging⟩]
          · rw [if_neg (by tauto), if_neg (by tauto)]

/-- Claim C6: over one conversion run, gene feature lines are deduplicated
through the registry: the registry only grows; a gene line for name `g`
appears in the output exactly once when `g` is newly registered during the
run and never otherwise (in particular at most once); it is emitted by the
first successfully processed record bearing `g`; and processing the same
record twice emits at most one gene line for its gene name. -/
theorem C6_registry (iso : String → String) (genes : List String) (rows : List BedRow)
    (g : String) (r : BedRow) :
    (∀ x ∈ genes, x ∈ (runAll iso genes rows).1) ∧
    countGene g (runAll iso genes rows).2 =
      (if g ∈ (runAll iso genes rows).1 ∧ g ∉ genes then 1 else 0) ∧
    countGene g (runAll iso genes rows).2 ≤ 1 ∧
    (∀ p : List String × List Emission, run iso genes r = Except.ok p →
      g = iso r.name → g ∉ genes → countGene g p.2 = 1) ∧
    countGene (iso r.name) (runAll iso genes [r, r]).2 ≤ 1 := by
  obtain ⟨hmono, hcount⟩ := runAll_registry iso rows genes g
  refine ⟨hmono, hcount, ?_, ?_, ?_⟩
  · rw [hcount]
    split
    · exact le_refl 1
    · exact Nat.zero_le 1
  · intro p hok hEq hnot
    rw [(run_ok_inv iso genes r p hok).2 g, if_pos ⟨hEq, hEq ▸ hnot⟩]
  · rw [(runAll_registry iso [r, r] genes (iso r.name)).2]
    split
    · exact le_refl 1
    · exact Nat.zero_le 1

/-- A constant isoform lookup used by concrete witnesses. -/
def iso0 : String → String := fun _ => "g"

/-- A non-coding single-exon record used by the C6 witness. -/
def rowN : BedRow := ⟨"c", 0, 10, "t", "+", 0, 0, 1, [0], [10]⟩

/-- The emissions of `run` on `rowN` from an empty registry. -/
def outN : List Emission :=
  [Emission.gene "g" 0 10,
   Emission.line ⟨"transcript", 0, 10, -1, -1⟩,
   Emission.line ⟨"exon", 0, 10, 0, -1⟩]

/-- Claim C6 witness: at the concrete record `rowN` the gene line is
emitted exactly once from an empty registry, and the first record bearing
the gene name carries it. -/
theorem C6_witness :
    countGene "g" (runAll iso0 [] [rowN]).2 = 1 ∧ countGene "g" outN = 1 := by
  refine ⟨?_, ?_⟩
  · rw [(C6_registry iso0 [] [rowN] "g" rowN).2.1]
    decide
  · exact (C6_registry iso0 [] [rowN] "g" rowN).2.2.2.1 (["g"], outN) (by decide) rfl
      (by decide)

/-! ### Emission structure of one run (claim C4) -/

theorem mem_ite_nil {α : Type} {P : Prop} [Decidable P] {l : List α} {a : α}
    (h : a ∈ (if P then l else [])) : P ∧ a ∈ l := by
  by_cases hp : P
  · rw [if_pos hp] at h
    exact ⟨hp, h⟩
  · rw [if_neg hp] at h
    cases h

theorem mem_write_features {c : EmitCall} {i : ℕ} {strand : String}
    {firstUtrEnd cdsStart cdsEnd lastUtrStart frame : ℤ} {ss es : List ℤ}
    (h : c ∈ write_features i strand firstUtrEnd cdsStart cdsEnd lastUtrStart frame ss es) :
    c = ⟨if strand = "+" then "5UTR" else "3UTR", ss.getD i 0,
         min (es.getD i 0) firstUtrEnd, (i : ℤ), -1⟩ ∨
    c = ⟨"CDS", max (ss.getD i 0) cdsStart, min (es.getD i 0) cdsEnd, (i : ℤ), frame⟩ ∨
    c = ⟨if strand = "+" then "3UTR" else "5UTR", max lastUtrStart (ss.getD i 0),
         es.getD i 0, (i : ℤ), -1⟩ := by
  unfold write_features at h
  rcases List.mem_append.mp h with h | h
  · rcases List.mem_append.mp h with h | h
    · exact Or.inl (List.mem_singleton.mp (mem_ite_nil h).2)
    · exact Or.inr (Or.inl (List.mem_singleton.mp (mem_ite_nil h).2))
  · exact Or.inr (Or.inr (List.mem_singleton.mp (mem_ite_nil h).2))

theorem mem_write_codon {c : EmitCall} {typeG : String} {codon : List ℤ}
    (h : c ∈ write_codon typeG codon) :
    c = ⟨typeG, codon.getD 0 0, codon.getD 1 0, codon.getD 4 0, 0⟩ ∨
    c = ⟨typeG, codon.getD 2 0, codon.getD 1 0, codon.getD 5 0,
         codon.getD 1 0 - codon.getD 0 0⟩ := by
  unfold write_codon at h
  rcases List.mem_cons.mp h with h | h
  · exact Or.inl h
  · exact Or.inr (List.mem_singleton.mp (mem_ite_nil h).2)

theorem mem_runEmissions_cases {c : EmitCall} {strand : String} {txStart txEnd : ℤ}
    {exonCount : ℕ} {ss es : List ℤ} {frames fc lc : List ℤ}
    {firstUtrEnd cdsStart2 cdsEnd2 lastUtrStart : ℤ}
    (h : c ∈ runEmissions strand txStart txEnd exonCount ss es frames fc lc
      firstUtrEnd cdsStart2 cdsEnd2 lastUtrStart) :
    c = ⟨"transcript", txStart, txEnd, -1, -1⟩ ∨
    (∃ i, i < exonCount ∧ c = ⟨"exon", ss.getD i 0, es.getD i 0, (i : ℤ), -1⟩) ∨
    (∃ i, i < exonCount ∧ cdsStart2 < cdsEnd2 ∧
      c ∈ write_features i strand firstUtrEnd cdsStart2 cdsEnd2 lastUtrStart
        (frames.getD i 0) ss es) ∨
    c ∈ write_codon "start_codon" fc ∨ c ∈ write_codon "stop_codon" fc ∨
    c ∈ write_codon "start_codon" lc ∨ c ∈ write_codon "stop_codon" lc := by
  unfold runEmissions at h
  rcases List.mem_cons.mp h with h | h
  · exact Or.inl h
  rcases List.mem_append.mp h with h | h
  · rcases List.mem_flatMap.mp h with ⟨i, hi, hmem⟩
    have hilt : i < exonCount := List.mem_range.mp hi
    rcases List.mem_cons.mp hmem with h | h
    · exact Or.inr (Or.inl ⟨i, hilt, h⟩)
    · obtain ⟨hlt, hwf⟩ := mem_ite_nil h
      exact Or.inr (Or.inr (Or.inl ⟨i, hilt, hlt, hwf⟩))
  · by_cases hstr : strand ≠ "-"
    · rw [if_pos hstr] at h
      rcases List.mem_append.mp h with h | h
      · exact Or.inr (Or.inr (Or.inr (Or.inl (mem_ite_nil h).2)))
      · exact Or.inr (Or.inr (Or.inr (Or.inr (Or.inr (Or.inr (mem_ite_nil h).2)))))
    · rw [if_neg hstr] at h
      rcases List.mem_append.mp h with h | h
      · exact Or.inr (Or.inr (Or.inr (Or.inr (Or.inr (Or.inl (mem_ite_nil h).2)))))
      · exact Or.inr (Or.inr (Or.inr (Or.inr (Or.inl (mem_ite_nil h).2))))

theorem run_ok_body (iso : String → String) (genes : List String) (r : BedRow)
    (p : List String × List Emission) (hok : run iso genes r = Except.ok p) :
    ∃ ce2 cs2 : ℤ,
      (if r.strand = "+" ∧ codon_complete (find_last_codon
          (exon_frames r.cdsStart r.cdsEnd r.exonStart r.exonEnd r.strand) r.strand
          r.cdsStart r.cdsEnd r.exonStart r.exonEnd) = true then
        move_pos r.txStart r.txEnd r.exonCount r.exonStart r.exonEnd r.cdsEnd (-3)
       else Except.ok r.cdsEnd) = Except.ok ce2 ∧
      (if r.strand = "-" ∧ codon_complete (find_first_codon
          (exon_frames r.cdsStart r.cdsEnd r.exonStart r.exonEnd r.strand) r.strand
          r.cdsStart r.cdsEnd r.exonStart r.exonEnd) = true then
        move_pos r.txStart r.txEnd r.exonCount r.exonStart r.exonEnd r.cdsStart 3
       else Except.ok r.cdsStart) = Except.ok cs2 ∧
      p.2 = (if iso r.name ∈ genes then ([] : List Emission)
             else [Emission.gene (iso r.name) r.txStart r.txEnd]) ++
        (runEmissions r.strand r.txStart r.txEnd r.exonCount r.exonStart r.exonEnd
          (exon_frames r.cdsStart r.cdsEnd r.exonStart r.exonEnd r.strand)
          (find_first_codon (exon_frames r.cdsStart r.cdsEnd r.exonStart r.exonEnd r.strand)
            r.strand r.cdsStart r.cdsEnd r.exonStart r.exonEnd)
          (find_last_codon (exon_frames r.cdsStart r.cdsEnd r.exonStart r.exonEnd r.strand)
            r.strand r.cdsStart r.cdsEnd r.exonStart r.exonEnd)
          r.cdsStart cs2 ce2 r.cdsEnd).map Emission.line := by
  simp only [run] at hok
  split at hok
  · exact Except.noConfusion hok
  · rename_i ce2 hce
    split at hok
    · exact Except.noConfusion hok
    · rename_i cs2 hcs
      refine ⟨ce2, cs2, hce, hcs, ?_⟩
      by_cases hg : iso r.name ∈ genes
      · rw [if_pos hg] at hok
        cases hok
        rw [if_pos hg]
        simp
      · rw [if_neg hg] at hok
        cases hok
        rw [if_neg hg]
        simp

/-- Modelled from the spec as read by claim C4: the per-exon UTR/CDS split
with the UTR boundaries also taken from the POST-trim CDS bounds (the
claim asserts the emitted UTR/CDS segment boundaries use the post-trim
bounds).  Compared below against the source pipeline, whose `write_features`
receives `firstUtrEnd`/`lastUtrStart` captured before the trim. -/
def write_features_postTrim (i : ℕ) (strand : String) (cdsStart cdsEnd frame : ℤ)
    (exonStart exonEnd : List ℤ) : List EmitCall :=
  write_features i strand cdsStart cdsStart cdsEnd cdsEnd frame exonStart exonEnd

/-- Whether an emit call is a UTR segment line. -/
def isUtr (c : EmitCall) : Bool :=
  decide (c.typeG = "5UTR") || decide (c.typeG = "3UTR")

/-- A single-exon minus-strand record whose leading codon is complete, so
the stop-codon trim moves `cdsStart` from 0 to 3. -/
def rowM : BedRow := ⟨"c", 0, 300, "t", "-", 0, 300, 1, [0], [300]⟩

/-- The emissions of `run` on `rowM` from an empty registry: no UTR line is
emitted, although the exon head `[0,3)` is outside the post-trim CDS. -/
def outM : List Emission :=
  [Emission.gene "g" 0 300,
   Emission.line ⟨"transcript", 0, 300, -1, -1⟩,
   Emission.line ⟨"exon", 0, 300, 0, -1⟩,
   Emission.line ⟨"CDS", 3, 300, 0, 0⟩,
   Emission.line ⟨"start_codon", 297, 300, 0, 0⟩,
   Emission.line ⟨"stop_codon", 0, 3, 0, 0⟩]

/-- Claim C4 counterexample: UTR segment boundaries do NOT use the
post-trim CDS bounds.  On `rowM` the trim narrows `cdsStart` from 0 to 3
(`move_pos 0 (+3) = 3`), and the emitted CDS segment is `[3,300)`, yet the
pipeline emits no UTR line at all, while the post-trim reading of the spec
(the spec-modelled `write_features_postTrim`) would emit exactly one UTR
segment `[0,3)`: the UTR split still uses the pre-trim `cdsStart = 0`. -/
theorem C4_counterexample :
    run iso0 [] rowM = Except.ok (["g"], outM) ∧
    (outM.countP fun e =>
      match e with
      | Emission.gene _ _ _ => false
      | Emission.line c => isUtr c) = 0 ∧
    move_pos 0 300 1 [0] [300] 0 3 = Except.ok 3 ∧
    (write_features_postTrim 0 "-" 3 300 0 [0] [300]).countP isUtr = 1 := by
  refine ⟨by decide, by decide, by decide, by decide⟩

/-- Claim C4 (amended): for every successfully processed record, the trim
step narrows only the strand-appropriate CDS bound (`cdsStart` is unchanged
on `+`, `cdsEnd` is unchanged on `-`); every emitted CDS segment line is the
intersection of its exon with the POST-trim CDS bounds and carries the
frame from the FrameVector computed against the PRE-trim bounds (the
vector is not recomputed); and every emitted UTR segment line takes its
CDS-side boundary from the PRE-trim bounds (`cdsStart`/`cdsEnd` as parsed),
not the post-trim ones. -/
theorem C4_amended (iso : String → String) (genes : List String) (r : BedRow)
    (p : List String × List Emission) (ce2 cs2 : ℤ)
    (hok : run iso genes r = Except.ok p)
    (hce : (if r.strand = "+" ∧ codon_complete (find_last_codon
        (exon_frames r.cdsStart r.cdsEnd r.exonStart r.exonEnd r.strand) r.strand
        r.cdsStart r.cdsEnd r.exonStart r.exonEnd) = true then
        move_pos r.txStart r.txEnd r.exonCount r.exonStart r.exonEnd r.cdsEnd (-3)
       else Except.ok r.cdsEnd) = Except.ok ce2)
    (hcs : (if r.strand = "-" ∧ codon_complete (find_first_codon
        (exon_frames r.cdsStart r.cdsEnd r.exonStart r.exonEnd r.strand) r.strand
        r.cdsStart r.cdsEnd r.exonStart r.exonEnd) = true then
        move_pos r.txStart r.txEnd r.exonCount r.exonStart r.exonEnd r.cdsStart 3
       else Except.ok r.cdsStart) = Except.ok cs2) :
    (r.strand = "+" → cs2 = r.cdsStart) ∧
    (r.strand = "-" → ce2 = r.cdsEnd) ∧
    ∀ c : EmitCall, Emission.line c ∈ p.2 →
      (c.typeG = "CDS" → ∃ i, i < r.exonCount ∧
        c = ⟨"CDS", max (r.exonStart.getD i 0) cs2, min (r.exonEnd.getD i 0) ce2,
          (i : ℤ),
          (exon_frames r.cdsStart r.cdsEnd r.exonStart r.exonEnd r.strand).getD i 0⟩) ∧
      ((c.typeG = "5UTR" ∨ c.typeG = "3UTR") → ∃ i, i < r.exonCount ∧
        (c = ⟨c.typeG, r.exonStart.getD i 0, min (r.exonEnd.getD i 0) r.cdsStart,
          (i : ℤ), -1⟩ ∨
         c = ⟨c.typeG, max r.cdsEnd (r.exonStart.getD i 0), r.exonEnd.getD i 0,
          (i : ℤ), -1⟩)) := by
  obtain ⟨ce2', cs2', hce', hcs', hbody⟩ := run_ok_body iso genes r p hok
  have hceq : ce2' = ce2 := by
    rw [hce] at hce'
    exact (Except.ok.injEq _ _).mp hce'.symm
  have hcsq : cs2' = cs2 := by
    rw [hcs] at hcs'
    exact (Except.ok.injEq _ _).mp hcs'.symm
  rw [hceq, hcsq] at hbody
  refine ⟨?_, ?_, ?_⟩
  · intro hstr
    rw [if_neg (by rw [hstr]; simp)] at hcs
    exact ((Except.ok.injEq _ _).mp hcs).symm
  · intro hstr
    rw [if_neg (by rw [hstr]; simp)] at hce
    exact ((Except.ok.injEq _ _).mp hce).symm
  · intro c hmem
    rw [hbody] at hmem
    rcases List.mem_append.mp hmem with h | h
    · exfalso
      by_cases hg : iso r.name ∈ genes
      · rw [if_pos hg] at h
        cases h
      · rw [if_neg hg] at h
        exact Emission.noConfusion (List.mem_singleton.mp h)
    · have hc : c ∈ runEmissions r.strand r.txStart r.txEnd r.exonCount r.exonStart
          r.exonEnd (exon_frames r.cdsStart r.cdsEnd r.exonStart r.exonEnd r.strand)
          (find_first_codon (exon_frames r.cdsStart r.cdsEnd r.exonStart r.exonEnd r.strand)
            r.strand r.cdsStart r.cdsEnd r.exonStart r.exonEnd)
          (find_last_codon (exon_frames r.cdsStart r.cdsEnd r.exonStart r.exonEnd r.strand)
            r.strand r.cdsStart r.cdsEnd r.exonStart r.exonEnd)
          r.cdsStart cs2 ce2 r.cdsEnd := by
        obtain ⟨c', hc', heq⟩ := List.mem_map.mp h
        cases heq
        exact hc'
      rcases mem_runEmissions_cases hc with h | ⟨i, hi, h⟩ | ⟨i, hi, hlt, h⟩ |
        h | h | h | h
      · subst h
        exact ⟨fun hC => absurd hC (by simp), fun hU => absurd hU (by simp)⟩
      · subst h
        exact ⟨fun hC => absurd hC (by simp), fun hU => absurd hU (by simp)⟩
      · rcases mem_write_features h with h | h | h
        · subst h
          by_cases hstr : r.strand = "+"
          · simp only [hstr, if_true]
            refine ⟨fun hC => absurd hC (by simp), fun _ => ⟨i, hi, Or.inl rfl⟩⟩
          · simp only [hstr, if_false]
            refine ⟨fun hC => absurd hC (by simp), fun _ => ⟨i, hi, Or.inl rfl⟩⟩
        · subst h
          refine ⟨fun _ => ⟨i, hi, rfl⟩, fun hU => absurd hU (by simp)⟩
        · subst h
          by_cases hstr : r.strand = "+"
          · simp only [hstr, if_true]
            refine ⟨fun hC => absurd hC (by simp), fun _ => ⟨i, hi, Or.inr rfl⟩⟩
          · simp only [hstr, if_false]
            refine ⟨fun hC => absurd hC (by simp), fun _ => ⟨i, hi, Or.inr rfl⟩⟩
      all_goals
        rcases mem_write_codon h with h | h <;> subst h <;>
          exact ⟨fun hC => absurd hC (by simp), fun hU => absurd hU (by simp)⟩

/-- A single-exon plus-strand record whose trailing codon is complete, so
the stop-codon trim moves `cdsEnd` from 300 to 297. -/
def rowA : BedRow := ⟨"c", 0, 300, "t", "+", 0, 300, 1, [0], [300]⟩

/-- The emissions of `run` on `rowA` from an empty registry. -/
def outA : List Emission :=
  [Emission.gene "g" 0 300,
   Emission.line ⟨"transcript", 0, 300, -1, -1⟩,
   Emission.line ⟨"exon", 0, 300, 0, -1⟩,
   Emission.line ⟨"CDS", 0, 297, 0, 0⟩,
   Emission.line ⟨"start_codon", 0, 3, 0, 0⟩,
   Emission.line ⟨"stop_codon", 297, 300, 0, 0⟩]

/-- Claim C4 witness: on the concrete record `rowA` the emitted CDS line
`[0,297)` is the exon intersection with the post-trim bound 297 and carries
frame 0 from the pre-trim FrameVector. -/
theorem C4_witness :
    ∃ i, i < rowA.exonCount ∧
      (⟨"CDS", 0, 297, 0, 0⟩ : EmitCall) =
        ⟨"CDS", max (rowA.exonStart.getD i 0) 0, min (rowA.exonEnd.getD i 0) 297, (i : ℤ),
         (exon_frames rowA.cdsStart rowA.cdsEnd rowA.exonStart rowA.exonEnd
           rowA.strand).getD i 0⟩ := by
  have h := C4_amended iso0 [] rowA (["g"], outA) 297 0 (by decide) (by decide) (by decide)
  exact ((h.2.2 ⟨"CDS", 0, 297, 0, 0⟩ (by decide)).1) rfl

end Bed2Gtf
